import Mathlib

/-!
Verification of the Gaggle Anki-export parser (`src/gaggle/gaggle.py`).

This file shallowly embeds the parts of the source relevant to the frozen
claims:

* the field-name resolver `_generate_unique_field_names`,
* the header codec (`read_header_settings`, `reformat_header_settings`,
  `parse_header_settings`, `AnkiDeck.write_header`),
* card construction (`AnkiCard.__init__`, `_parse_anki_header_bool`,
  `_generate_field_dict`) and deck parsing (`create_cards_from_tsv`,
  `_parse_anki_export`).

Modelling conventions:

* Python `str`-or-`int` header values become the inductive `HVal`.
* Python exceptions become `Except PyErr`; each `PyErr` constructor is named
  after the concrete raise site it models.
* Python `warnings.warn(...)` calls inside the resolver become an explicit
  list of `Diag` values collected in emission order.
* Python `set[str]` becomes a `List String` used only through membership and
  insertion of fresh elements, which matches how the source uses the set.
* Streams become `List String` of lines (without their trailing newline);
  the character-level `tell`/`seek` bookkeeping of `read_header_settings`
  only serves to leave the stream at the first non-header line, which the
  line-list model represents directly.
* Library behaviour used by the source is modelled explicitly: `pyInt?`
  models `int(str)` (whitespace-stripped optional sign and digits; the rarely
  used digit-grouping underscores are not modelled), `natToDecimal` models
  `str(int)` for naturals, `csvRow` models `csv.reader` with the `excel-tab`
  dialect on rows that contain no quote characters (the only rows the claims
  exercise), and `dictInsert`/`dictLookup` model `dict` insertion-order
  semantics.
-/

/-- A Python value that is either a `str` or an `int`, the value type of Anki
header dictionaries after the opportunistic `int` cast of
`transform_integer_value`. -/
inductive HVal where
  | str : String → HVal
  | int : Int → HVal
deriving DecidableEq, Repr

deriving instance DecidableEq for Except

/-- Python exceptions raised by the embedded code, one constructor per raise
site. -/
inductive PyErr where
  /-- `ValueError` from `_parse_anki_header_bool`: the argument is neither
  the Anki true nor false literal. -/
  | valueErrorBadBool : HVal → PyErr
  /-- `ValueError` from `_generate_unique_field_names`: the index-associated
  generic name `Field{count}` is already claimed. -/
  | valueErrorGenericNameDuplicated : String → PyErr
  /-- `ValueError` from tuple unpacking in `read_header_settings`: a header
  line does not split into exactly a setting and a value at `:`. -/
  | valueErrorHeaderLineSplit : PyErr
  /-- `KeyError` from `reformat_header_settings` (unknown setting name) or
  from the `header[...]` subscript in `_parse_anki_export`. -/
  | keyError : String → PyErr
  /-- `TypeError` raised while building the leftover-names warning: the call
  `LeftoverArgumentWarning.from_values([name], field_names, context_message=...,
  leftover_name=...)` binds `context_message` both positionally and by
  keyword. -/
  | typeErrorLeftoverNames : PyErr
  /-- `TypeError` from calling `AnkiCard(...)` with an unexpected keyword
  argument (a header key that is not an `__init__` parameter). -/
  | typeErrorUnexpectedKeyword : String → PyErr
deriving DecidableEq, Repr

/-- A recoverable diagnostic emitted through `warnings.warn` by the
resolver. -/
inductive Diag where
  /-- `exceptions.DuplicateWarning(context, duplicate_value, replacement_value)`. -/
  | duplicateName : String → String → String → Diag
  /-- `exceptions.HeaderFieldNameMismatchWarning(overwritten_value, replacement_value)`. -/
  | headerFieldNameMismatch : String → String → Diag
deriving DecidableEq, Repr

/-- The observable outcome of running the `_generate_unique_field_names`
generator to completion: the names yielded (in order), the warnings issued
(in order), the final state of the `seen_names` set, and the exception that
terminated it, if any. -/
structure ResolveResult where
  names : List String
  diags : List Diag
  seen : List String
  err : Option PyErr
deriving DecidableEq, Repr

/-- Decimal digit characters. -/
def digitChars : List Char := ['0', '1', '2', '3', '4', '5', '6', '7', '8', '9']

/-- The decimal digit character for `d % 10`-style arguments. -/
def digitChar : Nat → Char
  | 0 => '0' | 1 => '1' | 2 => '2' | 3 => '3' | 4 => '4'
  | 5 => '5' | 6 => '6' | 7 => '7' | 8 => '8' | _ => '9'

/-- Numeric value of a decimal digit character. -/
def digitVal (c : Char) : Nat := c.toNat - 48

/-- Value of a most-significant-first digit string. -/
def ofDigitsMSB (cs : List Char) : Nat := cs.foldl (fun a c => a * 10 + digitVal c) 0

/-- Fuel-driven most-significant-first decimal digits of `n` (empty for 0);
correct whenever `n ≤ fuel`. -/
def natToDecimalCore : Nat → Nat → List Char
  | 0, _ => []
  | fuel + 1, n => if n = 0 then [] else natToDecimalCore fuel (n / 10) ++ [digitChar (n % 10)]

/-- Decimal digits of a natural number, modelling Python `str` on a
non-negative `int`. -/
def natToDecimal (n : Nat) : List Char := if n = 0 then ['0'] else natToDecimalCore n n

/-- Decimal representation of an integer, modelling Python `str` on `int`. -/
def intToDecimalChars : Int → List Char
  | .ofNat n => natToDecimal n
  | .negSucc m => '-' :: natToDecimal (m + 1)

/-- The string Python prints for a header value via `f-string` formatting. -/
def hvalStr : HVal → String
  | .str s => s
  | .int k => ⟨intToDecimalChars k⟩

/-- Digits of a candidate integer literal, `none` unless the list is a
nonempty all-digit string. -/
def digitsToNat? (cs : List Char) : Option Nat :=
  if cs ≠ [] ∧ cs.all (·.isDigit) then some (ofDigitsMSB cs) else none

/-- Drop leading and trailing whitespace, modelling Python `str.strip()`. -/
def pyStrip (cs : List Char) : List Char :=
  ((cs.dropWhile (·.isWhitespace)).reverse.dropWhile (·.isWhitespace)).reverse

/-- Parse an optionally signed digit string (whitespace already removed). -/
def pyIntCore : List Char → Option Int
  | [] => none
  | c :: rest =>
    if c = '+' then (digitsToNat? rest).map Int.ofNat
    else if c = '-' then (digitsToNat? rest).map fun n => -Int.ofNat n
    else (digitsToNat? (c :: rest)).map Int.ofNat

/-- Model of Python `int(s)` for a `str` argument: surrounding whitespace is
ignored, then an optional sign precedes a nonempty digit string. -/
def pyInt? (s : String) : Option Int :=
  pyIntCore (pyStrip s.data)

/-- Drop trailing whitespace, modelling Python `str.rstrip()`. -/
def rstripChars (cs : List Char) : List Char :=
  (cs.reverse.dropWhile (·.isWhitespace)).reverse

/-- `transform_integer_value`: attempt to convert the value to `int`; on
success translate then scale it, otherwise return the value unchanged. -/
def transform_integer_value (value : HVal) (translation : Int) (scale : Int) : HVal :=
  match value with
  | .int n => .int ((n + translation) * scale)
  | .str s =>
    match pyInt? s with
    | some n => .int ((n + translation) * scale)
    | none => .str s

/-- The generic name `f'Field{idx}'` assigned to an unnamed field. -/
def genericFieldName (idx : Nat) : String := ⟨('F' :: 'i' :: 'e' :: 'l' :: 'd' :: natToDecimal idx)⟩

/-- The class attribute `AnkiCard._reserved_names`, also the seed of the
`seen_names` set. -/
def AnkiCard_reserved_names : List String := ["Tags", "Deck", "Note Type", "GUID"]

/-- The loop body of `_generate_unique_field_names`, recursing over the
remaining candidate names and fields with the running `itertools.count()`
value and the current `seen_names` set. One candidate name and one field are
consumed per iteration; the generator stops when the fields are exhausted,
raising `TypeError` out of the broken `LeftoverArgumentWarning.from_values`
call if a candidate name remains at that point. -/
def _generate_unique_field_names_go (indexes_reserved_names : Nat → Option String) :
    List String → List String → Nat → List String → ResolveResult
  | field_names, [], _, seen_names =>
    match field_names with
    | [] => ⟨[], [], seen_names, none⟩
    | _ :: _ => ⟨[], [], seen_names, some .typeErrorLeftoverNames⟩
  | field_names, _ :: fields, count, seen_names =>
    match indexes_reserved_names count with
    | some reserved_name =>
      let r := _generate_unique_field_names_go indexes_reserved_names
        field_names.tail fields (count + 1) seen_names
      ⟨reserved_name :: r.names,
       (match field_names.head? with
        | some name =>
          if name ≠ "" ∧ name ≠ reserved_name then
            [Diag.headerFieldNameMismatch name reserved_name]
          else []
        | none => []) ++ r.diags,
       r.seen, r.err⟩
    | none =>
      match field_names.head? with
      | some name =>
        if name ∈ seen_names then
          if genericFieldName count ∈ seen_names then
            ⟨[], [Diag.duplicateName "field name" name (genericFieldName count)], seen_names,
             some (.valueErrorGenericNameDuplicated (genericFieldName count))⟩
          else
            let r := _generate_unique_field_names_go indexes_reserved_names
              field_names.tail fields (count + 1) (genericFieldName count :: seen_names)
            ⟨genericFieldName count :: r.names,
             Diag.duplicateName "field name" name (genericFieldName count) :: r.diags,
             r.seen, r.err⟩
        else if name = "" then
          if genericFieldName count ∈ seen_names then
            ⟨[], [], seen_names, some (.valueErrorGenericNameDuplicated (genericFieldName count))⟩
          else
            let r := _generate_unique_field_names_go indexes_reserved_names
              field_names.tail fields (count + 1) (genericFieldName count :: seen_names)
            ⟨genericFieldName count :: r.names, r.diags, r.seen, r.err⟩
        else
          let r := _generate_unique_field_names_go indexes_reserved_names
            field_names.tail fields (count + 1) (name :: seen_names)
          ⟨name :: r.names, r.diags, r.seen, r.err⟩
      | none =>
        if genericFieldName count ∈ seen_names then
          ⟨[], [], seen_names, some (.valueErrorGenericNameDuplicated (genericFieldName count))⟩
        else
          let r := _generate_unique_field_names_go indexes_reserved_names
            field_names.tail fields (count + 1) (genericFieldName count :: seen_names)
          ⟨genericFieldName count :: r.names, r.diags, r.seen, r.err⟩

/-- `_generate_unique_field_names(field_names, fields, indexes_reserved_names,
seen_names)` run to completion. The `Mapping[int, str]` argument is modelled
as the partial function `dict.get` denotes. -/
def _generate_unique_field_names (field_names fields : List String)
    (indexes_reserved_names : Nat → Option String)
    (seen_names : List String) : ResolveResult :=
  _generate_unique_field_names_go indexes_reserved_names field_names fields 0 seen_names

/-- The internal (Gaggle-style) header setting names. A parsed header is a
Python `dict` whose keys, after `reformat_header_settings`, can only be the
six known internal names, so it is modelled as a record with one optional
slot per internal key; `dict` equality ignores insertion order, which the
record does too. -/
inductive HKey where
  | separator | has_html | guid_idx | note_type_idx | deck_idx | tags_idx
deriving DecidableEq, Repr, Fintype

/-- The wire (Anki-style) name of an internal setting, the inverse mapping
`_ANKI_EXPORT_HEADER_MAPPING_REVERSE`. -/
def wireOfInternal : HKey → String
  | .separator => "separator"
  | .has_html => "html"
  | .guid_idx => "guid column"
  | .note_type_idx => "notetype column"
  | .deck_idx => "deck column"
  | .tags_idx => "tags column"

/-- The wire-to-internal key table `_ANKI_EXPORT_HEADER_MAPPING`; `none`
models the `KeyError` on an unknown setting name. -/
def internalOfWire (s : String) : Option HKey :=
  if s = "html" then some .has_html
  else if s = "tags column" then some .tags_idx
  else if s = "notetype column" then some .note_type_idx
  else if s = "deck column" then some .deck_idx
  else if s = "guid column" then some .guid_idx
  else if s = "separator" then some .separator
  else none

/-- An Anki header in internal (Gaggle) form: a mapping from internal setting
name to value, with absent settings `none`. -/
structure Hdr where
  separator : Option HVal
  has_html : Option HVal
  guid_idx : Option HVal
  note_type_idx : Option HVal
  deck_idx : Option HVal
  tags_idx : Option HVal
deriving DecidableEq, Repr

/-- The empty header dictionary. -/
def emptyHdr : Hdr := ⟨none, none, none, none, none, none⟩

/-- Dictionary access `header.get(key)`. -/
def Hdr.get (h : Hdr) : HKey → Option HVal
  | .separator => h.separator
  | .has_html => h.has_html
  | .guid_idx => h.guid_idx
  | .note_type_idx => h.note_type_idx
  | .deck_idx => h.deck_idx
  | .tags_idx => h.tags_idx

/-- Dictionary assignment `header[key] = value`. -/
def Hdr.set (h : Hdr) (k : HKey) (v : HVal) : Hdr :=
  match k with
  | .separator => { h with separator := some v }
  | .has_html => { h with has_html := some v }
  | .guid_idx => { h with guid_idx := some v }
  | .note_type_idx => { h with note_type_idx := some v }
  | .deck_idx => { h with deck_idx := some v }
  | .tags_idx => { h with tags_idx := some v }

/-- The internal keys in the order matching `_ANKI_ORDERED_HEADER`. -/
def allHKeys : List HKey :=
  [.separator, .has_html, .guid_idx, .note_type_idx, .deck_idx, .tags_idx]

/-- `_ANKI_ORDERED_HEADER`, the canonical output order of wire settings. -/
def _ANKI_ORDERED_HEADER : List String :=
  ["separator", "html", "guid column", "notetype column", "deck column", "tags column"]

/-- Lookup in an insertion-ordered dictionary represented as an association
list with unique keys. -/
def dictLookup {α β : Type} [DecidableEq α] : List (α × β) → α → Option β
  | [], _ => none
  | (k, v) :: rest, key => if k = key then some v else dictLookup rest key

/-- Insertion into an insertion-ordered dictionary: replaces the value in
place when the key exists, appends otherwise — Python `d[k] = v`. -/
def dictInsert {α β : Type} [DecidableEq α] : List (α × β) → α → β → List (α × β)
  | [], key, val => [(key, val)]
  | (k, v) :: rest, key, val =>
    if k = key then (k, val) :: rest else (k, v) :: dictInsert rest key val

/-- The `GAGGLE_TO_ANKI` direction of `reformat_header_settings` combined with
the deep copy of `_copy_and_reformat`: translate internal keys to wire keys
and add 1 to every integer-castable value. The result is only consulted
through lookups, so the iteration order of the source dictionary is
irrelevant; the fixed `allHKeys` order is used. -/
def reformat_header_settings_gaggle_to_anki (h : Hdr) : List (String × HVal) :=
  allHKeys.filterMap fun k =>
    (h.get k).map fun v => (wireOfInternal k, transform_integer_value v 1 1)

/-- Splits a header line body at `:` into setting and value, `none` when the
line does not contain exactly one `:` — the `ValueError` both of
`setting, value = line.split(':')` unpacking too few and too many parts. -/
def splitTwo : List Char → Option (List Char × List Char)
  | [] => none
  | c :: cs =>
    if c = ':' then (if ':' ∈ cs then none else some ([], cs))
    else (splitTwo cs).map fun p => (c :: p.1, p.2)

/-- One header line as written by `AnkiDeck.write_header` (sans the trailing
newline, which the line-stream model keeps implicit):
`f'{header_symbol}{setting_name}{header_seperator}{setting_value}'`. -/
def headerLine (setting_name : String) (setting_value : HVal) : String :=
  ⟨'#' :: (setting_name.data ++ ':' :: (hvalStr setting_value).data)⟩

/-- `AnkiDeck.write_header`: reformat a copy of the header into wire form,
then emit one line per present setting in the fixed canonical order. -/
def write_header (h : Hdr) : List String :=
  let header_copy := reformat_header_settings_gaggle_to_anki h
  _ANKI_ORDERED_HEADER.filterMap fun setting_name =>
    (dictLookup header_copy setting_name).map fun setting_value =>
      headerLine setting_name setting_value

/-- The loop of `read_header_settings`: consume lines while they begin with
`#`, split each at `:`, strip trailing whitespace from the value, cast it
opportunistically to `int`, and record it in the wire dictionary; stop at the
first non-header line, leaving it unconsumed. -/
def read_header_settings_aux (acc : List (String × HVal)) :
    List String → Except PyErr (List (String × HVal) × List String)
  | [] => .ok (acc, [])
  | line :: rest =>
    match line.data with
    | [] => .ok (acc, line :: rest)
    | c :: body =>
      if c = '#' then
        match splitTwo body with
        | none => .error .valueErrorHeaderLineSplit
        | some (setting, value) =>
          read_header_settings_aux
            (dictInsert acc ⟨setting⟩
              (transform_integer_value (.str ⟨rstripChars value⟩) 0 1)) rest
      else .ok (acc, line :: rest)

/-- `read_header_settings`: the raw wire-form header dictionary plus the
remaining lines of the stream. -/
def read_header_settings (lines : List String) :
    Except PyErr (List (String × HVal) × List String) :=
  read_header_settings_aux [] lines

/-- The `ANKI_TO_GAGGLE` direction of `reformat_header_settings`: translate
every wire key to its internal key (a `KeyError` if unknown) and subtract 1
from every integer-castable value, accumulating into a header record. -/
def reformat_header_settings_anki_to_gaggle :
    List (String × HVal) → Hdr → Except PyErr Hdr
  | [], h => .ok h
  | (setting, value) :: rest, h =>
    match internalOfWire setting with
    | none => .error (.keyError setting)
    | some k =>
      reformat_header_settings_anki_to_gaggle rest
        (h.set k (transform_integer_value value (-1) 1))

/-- `parse_header_settings`: read the raw header then reformat it to internal
form, returning the header and the remaining stream. -/
def parse_header_settings (lines : List String) : Except PyErr (Hdr × List String) :=
  match read_header_settings lines with
  | .error e => .error e
  | .ok (items, rest) =>
    match reformat_header_settings_anki_to_gaggle items emptyHdr with
    | .error e => .error e
    | .ok h => .ok (h, rest)

/-- `_parse_anki_header_bool`: only the exact Anki literals `'true'` and
`'false'` parse; anything else (including integers, which compare unequal to
any string in Python) raises `ValueError`. -/
def _parse_anki_header_bool (bool_as_str : HVal) : Except PyErr Bool :=
  match bool_as_str with
  | .str s =>
    if s = "true" then .ok true
    else if s = "false" then .ok false
    else .error (.valueErrorBadBool (.str s))
  | .int n => .error (.valueErrorBadBool (.int n))

/-- An `AnkiCard` as observable after `__init__`: the parsed `has_html` flag
and the ordered field dictionary (insertion order = column order). -/
structure AnkiCardModel where
  has_html : Bool
  fields : List (String × String)
deriving DecidableEq, Repr

/-- The dict comprehension in `AnkiCard.__init__` building
`indexes_reserved_names`: iterate `zip(property_indexes,
AnkiCard._reserved_names)` in order `[tags_idx, deck_idx, note_type_idx,
guid_idx]`, skipping `None` indices; a repeated index keeps the later
reserved name (Python `dict` overwrite). Keys keep their Python value, so a
non-integer column index produces a binding no integer position ever hits. -/
def reservedInsertStep (acc : List (HVal × String)) (p : Option HVal × String) :
    List (HVal × String) :=
  match p.1 with
  | none => acc
  | some k => dictInsert acc k p.2

def buildReserved (tags_idx deck_idx note_type_idx guid_idx : Option HVal) :
    List (HVal × String) :=
  [(tags_idx, "Tags"), (deck_idx, "Deck"), (note_type_idx, "Note Type"),
   (guid_idx, "GUID")].foldl reservedInsertStep []

/-- `indexes_reserved_names.get(count)` for the positional counter: a binding
applies at position `count` exactly when its key is the Python `int` equal to
`count`. -/
def reservedGet (m : List (HVal × String)) (count : Nat) : Option String :=
  dictLookup m (.int (Int.ofNat count))

/-- `AnkiCard.__init__`: parse `has_html` first, then build the reserved
index table, seed `seen_names` with `set(AnkiCard._reserved_names)` (a fresh
set per card) and resolve the field names; `_generate_field_dict` zips the
resolved names with the field values. A resolver exception propagates. -/
def AnkiCard_init (fields : List String) (field_names : Option (List String))
    (has_html : HVal) (tags_idx note_type_idx deck_idx guid_idx : Option HVal) :
    Except PyErr AnkiCardModel :=
  match _parse_anki_header_bool has_html with
  | .error e => .error e
  | .ok b =>
    let r := _generate_unique_field_names (field_names.getD []) fields
      (reservedGet (buildReserved tags_idx deck_idx note_type_idx guid_idx))
      AnkiCard_reserved_names
    match r.err with
    | some e => .error e
    | none => .ok ⟨b, r.names.zip fields⟩

/-- Fields of one data row split at the separators, modelling `csv.reader`
with the `excel-tab` dialect on a row containing no quote characters (the
only rows the claims exercise); a blank line yields an empty row. -/
def csvRow (line : String) : List String :=
  match line.data with
  | [] => []
  | _ =>
    (line.data.foldr
      (fun c fs =>
        match fs with
        | [] => [[c]]
        | f :: rest => if c = '\t' then [] :: (f :: rest) else (c :: f) :: rest)
      [[]]).map fun f => (⟨f⟩ : String)

/-- `create_cards_from_tsv`: construct one `AnkiCard` per row, passing the
header settings as keyword arguments (`**header`); a header key that is not
an `AnkiCard.__init__` parameter — only `separator` is possible here — makes
every card construction raise `TypeError`, and an absent `html` setting
leaves the `'false'` default. The first exception aborts the loop. -/
def create_cards_from_tsv (lines : List String) (field_names : Option (List String))
    (header : Hdr) : Except PyErr (List AnkiCardModel) :=
  match lines with
  | [] => .ok []
  | line :: rest =>
    match
      (if header.separator.isSome then
        .error (.typeErrorUnexpectedKeyword "separator")
      else
        AnkiCard_init (csvRow line) field_names (header.has_html.getD (.str "false"))
          header.tags_idx header.note_type_idx header.deck_idx header.guid_idx :
        Except PyErr AnkiCardModel) with
    | .error e => .error e
    | .ok card =>
      match create_cards_from_tsv rest field_names header with
      | .error e => .error e
      | .ok cards => .ok (card :: cards)

/-- `_parse_anki_export`: parse the header; subscript the `separator`
setting (`KeyError` if absent); when it equals the literal `'tab'`, delete it,
parse the remaining lines as cards and put it back, otherwise return the
header with no cards. -/
def _parse_anki_export (lines : List String) (field_names : Option (List String)) :
    Except PyErr (Hdr × List AnkiCardModel) :=
  match parse_header_settings lines with
  | .error e => .error e
  | .ok (header, rest) =>
    match header.separator with
    | none => .error (.keyError "separator")
    | some v =>
      if v = .str "tab" then
        match create_cards_from_tsv rest field_names { header with separator := none } with
        | .error e => .error e
        | .ok cards => .ok ({ header with separator := some (.str "tab") }, cards)
      else
        .ok (header, [])

/-- A value that can occur in an internal-form header, i.e. one produced by
`parse_header_settings`: integers are unrestricted; strings must be what the
opportunistic `int` cast left alone (`pyInt?` fails), free of `:` (a value
containing `:` can never be read back, the line split fails), free of
newlines (a header line holds its value on one line) and without trailing
whitespace (the reader strips it). -/
def InternalFormVal : HVal → Prop
  | .int _ => True
  | .str s => pyInt? s = none ∧ ':' ∉ s.data ∧ '\n' ∉ s.data ∧ rstripChars s.data = s.data

instance : DecidablePred InternalFormVal := fun v =>
  match v with
  | .int _ => .isTrue trivial
  | .str _ => inferInstanceAs (Decidable (_ ∧ _ ∧ _ ∧ _))

/-- An absent setting or an internal-form value. -/
def InternalFormOpt : Option HVal → Prop
  | none => True
  | some v => InternalFormVal v

instance : DecidablePred InternalFormOpt := fun o =>
  match o with
  | none => .isTrue trivial
  | some _ => inferInstanceAs (Decidable (InternalFormVal _))

/-- A header in internal form: every present setting holds an internal-form
value. -/
def InternalForm (h : Hdr) : Prop :=
  InternalFormOpt h.separator ∧ InternalFormOpt h.has_html ∧ InternalFormOpt h.guid_idx ∧
    InternalFormOpt h.note_type_idx ∧ InternalFormOpt h.deck_idx ∧ InternalFormOpt h.tags_idx

instance : DecidablePred InternalForm := fun _ =>
  inferInstanceAs (Decidable (_ ∧ _ ∧ _ ∧ _ ∧ _ ∧ _))

/-- A wire value that reading a header line reproduces exactly: its printed
form is `:`-free, has no trailing whitespace, and the opportunistic `int`
cast of the reader maps it back to itself. -/
def ReadBackVal (w : HVal) : Prop :=
  ':' ∉ (hvalStr w).data ∧ rstripChars (hvalStr w).data = (hvalStr w).data ∧
    transform_integer_value (.str (hvalStr w)) 0 1 = w

/-- Apply, for each key of `ks` in order, the setting of `h` at that key (when
present) to `start` — the header that re-reading the serialized form of `h`
accumulates. -/
def setAll (h : Hdr) (ks : List HKey) (start : Hdr) : Hdr :=
  ks.foldl
    (fun acc k =>
      match h.get k with
      | some v => acc.set k v
      | none => acc) start

/-! ## Decimal printing and parsing -/

theorem digitChar_mem (d : Nat) : digitChar d ∈ digitChars := by
  rcases d with _|_|_|_|_|_|_|_|_|d
  case succ.succ.succ.succ.succ.succ.succ.succ.succ =>
    exact (by decide : ('9' : Char) ∈ digitChars)
  all_goals decide

theorem digitChars_props : ∀ c ∈ digitChars,
    c.isDigit = true ∧ c.isWhitespace = false ∧ c ≠ '+' ∧ c ≠ '-' ∧ c ≠ ':' ∧ c ≠ '\n' := by
  decide

theorem digitVal_digitChar (d : Nat) (h : d < 10) : digitVal (digitChar d) = d := by
  interval_cases d <;> decide

theorem ofDigitsMSB_append (xs : List Char) (c : Char) :
    ofDigitsMSB (xs ++ [c]) = ofDigitsMSB xs * 10 + digitVal c := by
  simp [ofDigitsMSB, List.foldl_append]

theorem natToDecimalCore_mem :
    ∀ fuel n c, c ∈ natToDecimalCore fuel n → c ∈ digitChars := by
  intro fuel
  induction fuel with
  | zero => intro n c h; simp [natToDecimalCore] at h
  | succ fuel ih =>
    intro n c h
    by_cases hn : n = 0
    · simp [natToDecimalCore, hn] at h
    · simp only [natToDecimalCore, if_neg hn, List.mem_append, List.mem_singleton] at h
      rcases h with h | h
      · exact ih _ _ h
      · subst h; exact digitChar_mem _

theorem natToDecimalCore_spec :
    ∀ fuel n, n ≤ fuel → ofDigitsMSB (natToDecimalCore fuel n) = n := by
  intro fuel
  induction fuel with
  | zero => intro n h; interval_cases n; simp [natToDecimalCore, ofDigitsMSB]
  | succ fuel ih =>
    intro n h
    by_cases hn : n = 0
    · simp [natToDecimalCore, hn, ofDigitsMSB]
    · have hdiv : n / 10 ≤ fuel := by
        have : n / 10 < n := Nat.div_lt_self (Nat.pos_of_ne_zero hn) (by omega)
        omega
      simp only [natToDecimalCore, if_neg hn]
      rw [ofDigitsMSB_append, ih _ hdiv, digitVal_digitChar _ (Nat.mod_lt _ (by omega))]
      omega

theorem natToDecimalCore_ne_nil (fuel n : Nat) (hn : n ≠ 0) (h : n ≤ fuel) :
    natToDecimalCore fuel n ≠ [] := by
  cases fuel with
  | zero => omega
  | succ fuel => simp [natToDecimalCore, hn]

theorem natToDecimal_mem (n : Nat) : ∀ c ∈ natToDecimal n, c ∈ digitChars := by
  intro c h
  by_cases hn : n = 0
  · simp [natToDecimal, hn] at h; subst h; decide
  · simp only [natToDecimal, if_neg hn] at h
    exact natToDecimalCore_mem _ _ _ h

theorem natToDecimal_ne_nil (n : Nat) : natToDecimal n ≠ [] := by
  by_cases hn : n = 0
  · simp [natToDecimal, hn]
  · simp only [natToDecimal, if_neg hn]
    exact natToDecimalCore_ne_nil _ _ hn le_rfl

theorem ofDigitsMSB_natToDecimal (n : Nat) : ofDigitsMSB (natToDecimal n) = n := by
  by_cases hn : n = 0
  · subst hn; decide
  · simp only [natToDecimal, if_neg hn]
    exact natToDecimalCore_spec _ _ le_rfl

theorem dropWhile_eq_self {p : Char → Bool} :
    ∀ cs : List Char, (∀ c ∈ cs, p c = false) → cs.dropWhile p = cs := by
  intro cs h
  cases cs with
  | nil => rfl
  | cons c cs => simp [List.dropWhile_cons, h c (List.mem_cons_self c cs)]

theorem pyStrip_eq_self (cs : List Char) (h : ∀ c ∈ cs, c.isWhitespace = false) :
    pyStrip cs = cs := by
  unfold pyStrip
  rw [dropWhile_eq_self cs h,
    dropWhile_eq_self cs.reverse (fun c hc => h c (List.mem_reverse.mp hc))]
  exact List.reverse_reverse cs

theorem rstripChars_eq_self (cs : List Char) (h : ∀ c ∈ cs, c.isWhitespace = false) :
    rstripChars cs = cs := by
  unfold rstripChars
  rw [dropWhile_eq_self cs.reverse (fun c hc => h c (List.mem_reverse.mp hc))]
  exact List.reverse_reverse cs

theorem digitsToNat?_eq (cs : List Char) (h0 : cs ≠ []) (h : ∀ c ∈ cs, c.isDigit = true) :
    digitsToNat? cs = some (ofDigitsMSB cs) := by
  unfold digitsToNat?
  rw [if_pos ⟨h0, List.all_eq_true.mpr h⟩]

theorem pyInt?_natToDecimal (n : Nat) : pyInt? ⟨natToDecimal n⟩ = some (n : Int) := by
  have hprops : ∀ c ∈ natToDecimal n,
      c.isDigit = true ∧ c.isWhitespace = false ∧ c ≠ '+' ∧ c ≠ '-' ∧ c ≠ ':' ∧ c ≠ '\n' :=
    fun c hc => digitChars_props c (natToDecimal_mem n c hc)
  unfold pyInt?
  have hdata : (⟨natToDecimal n⟩ : String).data = natToDecimal n := rfl
  rw [hdata, pyStrip_eq_self _ (fun c hc => (hprops c hc).2.1)]
  rcases hnd : natToDecimal n with _ | ⟨c, rest⟩
  · exact absurd hnd (natToDecimal_ne_nil n)
  · have hc := hprops c (by rw [hnd]; exact List.mem_cons_self _ _)
    rw [pyIntCore, if_neg hc.2.2.1, if_neg hc.2.2.2.1,
      digitsToNat?_eq _ (by simp) (fun x hx => (hprops x (hnd ▸ hx)).1)]
    rw [← hnd, ofDigitsMSB_natToDecimal]
    rfl

theorem pyInt?_int (k : Int) : pyInt? (hvalStr (.int k)) = some k := by
  cases k with
  | ofNat n => exact pyInt?_natToDecimal n
  | negSucc m =>
    have hprops : ∀ c ∈ natToDecimal (m + 1),
        c.isDigit = true ∧ c.isWhitespace = false ∧ c ≠ '+' ∧ c ≠ '-' ∧ c ≠ ':' ∧ c ≠ '\n' :=
      fun c hc => digitChars_props c (natToDecimal_mem _ c hc)
    show pyInt? ⟨'-' :: natToDecimal (m + 1)⟩ = some (Int.negSucc m)
    unfold pyInt?
    have hdata : (⟨'-' :: natToDecimal (m + 1)⟩ : String).data = '-' :: natToDecimal (m + 1) :=
      rfl
    rw [hdata, pyStrip_eq_self _ ?_]
    · rw [pyIntCore, if_neg (by decide), if_pos rfl,
        digitsToNat?_eq _ (natToDecimal_ne_nil _) (fun x hx => (hprops x hx).1),
        ofDigitsMSB_natToDecimal]
      simp only [Option.map_some', Option.some.injEq]
      rw [Int.negSucc_eq]
      norm_cast
    · intro c hc
      rcases List.mem_cons.mp hc with h | h
      · subst h; decide
      · exact (hprops c h).2.1

theorem intToDecimalChars_props (k : Int) :
    ∀ c ∈ intToDecimalChars k, c.isWhitespace = false ∧ c ≠ ':' ∧ c ≠ '\n' := by
  intro c hc
  cases k with
  | ofNat n =>
    have h := digitChars_props c (natToDecimal_mem n c hc)
    exact ⟨h.2.1, h.2.2.2.2.1, h.2.2.2.2.2⟩
  | negSucc m =>
    rcases List.mem_cons.mp hc with h | h
    · subst h; exact ⟨by decide, by decide, by decide⟩
    · have h2 := digitChars_props c (natToDecimal_mem _ c h)
      exact ⟨h2.2.1, h2.2.2.2.2.1, h2.2.2.2.2.2⟩

theorem readBack_int (k : Int) : ReadBackVal (.int k) := by
  refine ⟨?_, ?_, ?_⟩
  · intro h
    exact (intToDecimalChars_props k ':' h).2.1 rfl
  · exact rstripChars_eq_self _ (fun c hc => (intToDecimalChars_props k c hc).1)
  · simp [transform_integer_value, pyInt?_int]

theorem readBack_str (s : String) (h : InternalFormVal (.str s)) : ReadBackVal (.str s) := by
  obtain ⟨hint, hcolon, _, hrs⟩ := h
  exact ⟨hcolon, hrs, by simp [transform_integer_value, hvalStr, hint]⟩

theorem internalFormVal_roundtrip (v : HVal) (h : InternalFormVal v) :
    ReadBackVal (transform_integer_value v 1 1) ∧
      transform_integer_value (transform_integer_value v 1 1) (-1) 1 = v := by
  cases v with
  | int n =>
    have h1 : transform_integer_value (.int n) 1 1 = .int (n + 1) := by
      simp [transform_integer_value]
    rw [h1]
    refine ⟨readBack_int (n + 1), ?_⟩
    simp only [transform_integer_value, HVal.int.injEq]
    ring
  | str s =>
    have hint : pyInt? s = none := h.1
    have h1 : transform_integer_value (.str s) 1 1 = .str s := by
      simp [transform_integer_value, hint]
    rw [h1]
    exact ⟨readBack_str s h, by simp [transform_integer_value, hint]⟩

/-! ## Resolver invariants -/

theorem go_length (reserved : Nat → Option String) :
    ∀ (fields cands : List String) (count : Nat) (seen : List String),
      (_generate_unique_field_names_go reserved cands fields count seen).err = none →
      (_generate_unique_field_names_go reserved cands fields count seen).names.length =
        fields.length := by
  intro fields
  induction fields with
  | nil =>
    intro cands count seen h
    cases cands with
    | nil => rfl
    | cons c cs => simp [_generate_unique_field_names_go] at h
  | cons f fs ih =>
    intro cands count seen h
    rcases hres : reserved count with _ | rname
    · rcases cands with _ | ⟨n, rest⟩
      · by_cases hg : genericFieldName count ∈ seen
        · simp [_generate_unique_field_names_go, hres, hg] at h
        · simp only [_generate_unique_field_names_go, hres, List.head?_nil, List.tail_nil,
            if_neg hg] at h ⊢
          simpa using ih _ _ _ h
      · by_cases hdup : n ∈ seen
        · by_cases hg : genericFieldName count ∈ seen
          · simp [_generate_unique_field_names_go, hres, hdup, hg] at h
          · simp only [_generate_unique_field_names_go, hres, List.head?_cons, List.tail_cons,
              if_pos hdup, if_neg hg] at h ⊢
            simpa using ih _ _ _ h
        · by_cases hemp : n = ""
          · subst hemp
            by_cases hg : genericFieldName count ∈ seen
            · simp [_generate_unique_field_names_go, hres, hdup, hg] at h
            · simp only [_generate_unique_field_names_go, hres, List.head?_cons, List.tail_cons,
                if_neg hdup, if_pos rfl, if_neg hg] at h ⊢
              simpa using ih _ _ _ h
          · simp only [_generate_unique_field_names_go, hres, List.head?_cons, List.tail_cons,
              if_neg hdup, if_neg hemp] at h ⊢
            simpa using ih _ _ _ h
    · simp only [_generate_unique_field_names_go, hres] at h ⊢
      simpa using ih _ _ _ h

theorem go_nodup_step (reserved : Nat → Option String)
    (count : Nat) (seen : List String) (y : String) (r : ResolveResult)
    (hy : y ∉ seen)
    (hseen : ∀ i s, reserved i = some s → s ∈ seen)
    (hr : r.names.Nodup ∧
      ∀ x ∈ r.names, (∃ i, count + 1 ≤ i ∧ reserved i = some x) ∨ x ∉ (y :: seen)) :
    (y :: r.names).Nodup ∧
      ∀ x ∈ y :: r.names, (∃ i, count ≤ i ∧ reserved i = some x) ∨ x ∉ seen := by
  constructor
  · rw [List.nodup_cons]
    refine ⟨?_, hr.1⟩
    intro hx
    rcases hr.2 y hx with ⟨i, _, hri⟩ | hno
    · exact hy (hseen i y hri)
    · exact hno (List.mem_cons_self y seen)
  · intro x hx
    rcases List.mem_cons.mp hx with h | h
    · subst h; exact Or.inr hy
    · rcases hr.2 x h with ⟨i, hi, hri⟩ | hno
      · exact Or.inl ⟨i, by omega, hri⟩
      · exact Or.inr (fun hmem => hno (List.mem_cons_of_mem y hmem))

theorem go_nodup (reserved : Nat → Option String)
    (hinj : ∀ i j s t, reserved i = some s → reserved j = some t → i ≠ j → s ≠ t) :
    ∀ (fields cands : List String) (count : Nat) (seen : List String),
      (∀ i s, reserved i = some s → s ∈ seen) →
      (_generate_unique_field_names_go reserved cands fields count seen).names.Nodup ∧
        ∀ x ∈ (_generate_unique_field_names_go reserved cands fields count seen).names,
          (∃ i, count ≤ i ∧ reserved i = some x) ∨ x ∉ seen := by
  intro fields
  induction fields with
  | nil =>
    intro cands count seen _
    cases cands with
    | nil => exact ⟨List.nodup_nil, by simp [_generate_unique_field_names_go]⟩
    | cons c cs =>
      exact ⟨List.nodup_nil, by simp [_generate_unique_field_names_go]⟩
  | cons f fs ih =>
    intro cands count seen hseen
    have hseen' : ∀ (y : String), ∀ i s, reserved i = some s → s ∈ y :: seen :=
      fun y i s hr => List.mem_cons_of_mem y (hseen i s hr)
    rcases hres : reserved count with _ | rname
    · rcases cands with _ | ⟨n, rest⟩
      · by_cases hg : genericFieldName count ∈ seen
        · simp only [_generate_unique_field_names_go, hres, List.head?_nil, List.tail_nil,
            if_pos hg]
          exact ⟨List.nodup_nil, by simp⟩
        · simp only [_generate_unique_field_names_go, hres, List.head?_nil, List.tail_nil,
            if_neg hg]
          exact go_nodup_step reserved count seen _ _ hg hseen
            (ih _ (count + 1) _ (hseen' _))
      · by_cases hdup : n ∈ seen
        · by_cases hg : genericFieldName count ∈ seen
          · simp only [_generate_unique_field_names_go, hres, List.head?_cons, List.tail_cons,
              if_pos hdup, if_pos hg]
            exact ⟨List.nodup_nil, by simp⟩
          · simp only [_generate_unique_field_names_go, hres, List.head?_cons, List.tail_cons,
              if_pos hdup, if_neg hg]
            exact go_nodup_step reserved count seen _ _ hg hseen
              (ih _ (count + 1) _ (hseen' _))
        · by_cases hemp : n = ""
          · subst hemp
            by_cases hg : genericFieldName count ∈ seen
            · simp only [_generate_unique_field_names_go, hres, List.head?_cons, List.tail_cons,
                if_neg hdup, if_pos rfl, if_pos hg]
              exact ⟨List.nodup_nil, by simp⟩
            · simp only [_generate_unique_field_names_go, hres, List.head?_cons, List.tail_cons,
                if_neg hdup, if_pos rfl, if_neg hg]
              exact go_nodup_step reserved count seen _ _ hg hseen
                (ih _ (count + 1) _ (hseen' _))
          · simp only [_generate_unique_field_names_go, hres, List.head?_cons, List.tail_cons,
              if_neg hdup, if_neg hemp]
            exact go_nodup_step reserved count seen _ _ hdup hseen
              (ih _ (count + 1) _ (hseen' _))
    · simp only [_generate_unique_field_names_go, hres]
      have hr := ih cands.tail (count + 1) seen hseen
      constructor
      · rw [List.nodup_cons]
        refine ⟨?_, hr.1⟩
        intro hx
        rcases hr.2 rname hx with ⟨i, hi, hri⟩ | hno
        · exact hinj i count rname rname hri hres (by omega) rfl
        · exact hno (hseen count rname hres)
      · intro x hx
        rcases List.mem_cons.mp hx with h | h
        · subst h; exact Or.inl ⟨count, le_rfl, hres⟩
        · rcases hr.2 x h with ⟨i, hi, hri⟩ | hno
          · exact Or.inl ⟨i, by omega, hri⟩
          · exact Or.inr hno

/-! ## Dictionary, split and header-codec lemmas -/

theorem dictLookup_mem {α β : Type} [DecidableEq α] :
    ∀ (m : List (α × β)) (k : α) (v : β), dictLookup m k = some v → (k, v) ∈ m := by
  intro m
  induction m with
  | nil => intro k v h; simp [dictLookup] at h
  | cons p rest ih =>
    intro k v h
    rcases p with ⟨k', v'⟩
    by_cases hk : k' = k
    · subst hk
      simp [dictLookup] at h
      subst h
      exact List.mem_cons_self _ _
    · simp only [dictLookup, if_neg hk] at h
      exact List.mem_cons_of_mem _ (ih k v h)

theorem dictInsert_eq_append {α β : Type} [DecidableEq α] :
    ∀ (m : List (α × β)) (k : α) (v : β),
      dictLookup m k = none → dictInsert m k v = m ++ [(k, v)] := by
  intro m
  induction m with
  | nil => intro k v _; rfl
  | cons p rest ih =>
    intro k v h
    rcases p with ⟨k', v'⟩
    by_cases hk : k' = k
    · simp [dictLookup, hk] at h
    · simp only [dictLookup, if_neg hk] at h
      simp [dictInsert, hk, ih k v h]

theorem dictLookup_append_singleton {α β : Type} [DecidableEq α] :
    ∀ (m : List (α × β)) (k k' : α) (v : β), k' ≠ k →
      dictLookup (m ++ [(k, v)]) k' = dictLookup m k' := by
  intro m
  induction m with
  | nil =>
    intro k k' v h
    have h' : k ≠ k' := Ne.symm h
    simp [dictLookup, h']
  | cons p rest ih =>
    intro k k' v h
    rcases p with ⟨k'', v''⟩
    by_cases hk : k'' = k'
    · simp [dictLookup, hk]
    · simp [dictLookup, hk, ih k k' v h]

theorem splitTwo_append (a b : List Char) (ha : ':' ∉ a) (hb : ':' ∉ b) :
    splitTwo (a ++ ':' :: b) = some (a, b) := by
  induction a with
  | nil => simp [splitTwo, hb]
  | cons c cs ih =>
    have hc : c ≠ ':' := fun e => ha (e ▸ List.mem_cons_self c cs)
    simp [splitTwo, hc, ih (fun e => ha (List.mem_cons_of_mem c e))]

theorem wireOfInternal_inj : ∀ k1 k2 : HKey, wireOfInternal k1 = wireOfInternal k2 → k1 = k2 := by
  decide

theorem internalOfWire_wire : ∀ k : HKey, internalOfWire (wireOfInternal k) = some k := by
  decide

theorem wire_colon_free : ∀ k : HKey, ':' ∉ (wireOfInternal k).data := by
  decide

theorem allHKeys_nodup : allHKeys.Nodup := by decide

theorem ordered_eq_map_wire : _ANKI_ORDERED_HEADER = allHKeys.map wireOfInternal := by decide

theorem Hdr_internalForm_get (h : Hdr) (hf : InternalForm h) :
    ∀ k v, h.get k = some v → InternalFormVal v := by
  intro k v hk
  obtain ⟨h1, h2, h3, h4, h5, h6⟩ := hf
  cases k with
  | separator => have hk' : h.separator = some v := hk; rw [hk'] at h1; exact h1
  | has_html => have hk' : h.has_html = some v := hk; rw [hk'] at h2; exact h2
  | guid_idx => have hk' : h.guid_idx = some v := hk; rw [hk'] at h3; exact h3
  | note_type_idx => have hk' : h.note_type_idx = some v := hk; rw [hk'] at h4; exact h4
  | deck_idx => have hk' : h.deck_idx = some v := hk; rw [hk'] at h5; exact h5
  | tags_idx => have hk' : h.tags_idx = some v := hk; rw [hk'] at h6; exact h6

theorem entries_lookup_not_mem (h : Hdr) (k : HKey) :
    ∀ ks : List HKey, k ∉ ks →
      dictLookup (ks.filterMap fun q => (h.get q).map fun v =>
        (wireOfInternal q, transform_integer_value v 1 1)) (wireOfInternal k) = none := by
  intro ks
  induction ks with
  | nil => intro _; rfl
  | cons k' rest ih =>
    intro hk
    have hne : k' ≠ k := fun e => hk (e ▸ List.mem_cons_self _ _)
    have hrest := ih fun hm => hk (List.mem_cons_of_mem _ hm)
    cases hv : h.get k' with
    | none => simpa [List.filterMap_cons, hv] using hrest
    | some v =>
      have hw : wireOfInternal k' ≠ wireOfInternal k := fun e => hne (wireOfInternal_inj _ _ e)
      simp [List.filterMap_cons, hv, dictLookup, hw, hrest]

theorem entries_lookup_mem (h : Hdr) (k : HKey) :
    ∀ ks : List HKey, ks.Nodup → k ∈ ks →
      dictLookup (ks.filterMap fun q => (h.get q).map fun v =>
        (wireOfInternal q, transform_integer_value v 1 1)) (wireOfInternal k) =
        (h.get k).map fun v => transform_integer_value v 1 1 := by
  intro ks
  induction ks with
  | nil => intro _ hm; simp at hm
  | cons k' rest ih =>
    intro hnd hm
    rcases List.mem_cons.mp hm with he | hm'
    · subst he
      have hk_not : k ∉ rest := (List.nodup_cons.mp hnd).1
      cases hv : h.get k with
      | none => simpa [List.filterMap_cons, hv] using entries_lookup_not_mem h k rest hk_not
      | some v => simp [List.filterMap_cons, hv, dictLookup]
    · have hne : k' ≠ k := by
        rintro rfl
        exact (List.nodup_cons.mp hnd).1 hm'
      cases hv : h.get k' with
      | none => simpa [List.filterMap_cons, hv] using ih (List.nodup_cons.mp hnd).2 hm'
      | some v =>
        have hw : wireOfInternal k' ≠ wireOfInternal k := fun e => hne (wireOfInternal_inj _ _ e)
        simp [List.filterMap_cons, hv, dictLookup, hw, ih (List.nodup_cons.mp hnd).2 hm']

theorem entries_keys_nodup (h : Hdr) :
    ∀ ks : List HKey, ks.Nodup →
      ((ks.filterMap fun q => (h.get q).map fun v =>
        (wireOfInternal q, transform_integer_value v 1 1)).map Prod.fst).Nodup := by
  intro ks
  induction ks with
  | nil => intro _; simp
  | cons k rest ih =>
    intro hnd
    obtain ⟨hk, hnd'⟩ := List.nodup_cons.mp hnd
    cases hv : h.get k with
    | none => simpa [List.filterMap_cons, hv] using ih hnd'
    | some v =>
      simp only [List.filterMap_cons, hv, Option.map_some', List.map_cons]
      rw [List.nodup_cons]
      refine ⟨?_, ih hnd'⟩
      intro hmem
      obtain ⟨⟨key, val⟩, hpm, hfst⟩ := List.mem_map.mp hmem
      obtain ⟨k', hk', hfk⟩ := List.mem_filterMap.mp hpm
      cases hv' : h.get k' with
      | none => rw [hv'] at hfk; simp at hfk
      | some v' =>
        rw [hv'] at hfk
        simp only [Option.map_some', Option.some.injEq, Prod.mk.injEq] at hfk
        have : k' = k := wireOfInternal_inj _ _ (by rw [hfk.1]; exact hfst)
        exact hk (this ▸ hk')

theorem entries_props (h : Hdr) (hf : InternalForm h) :
    ∀ p ∈ reformat_header_settings_gaggle_to_anki h, ':' ∉ p.1.data ∧ ReadBackVal p.2 := by
  intro p hp
  obtain ⟨k, _, hfk⟩ := List.mem_filterMap.mp hp
  cases hv : h.get k with
  | none => rw [hv] at hfk; simp at hfk
  | some v =>
    rw [hv] at hfk
    simp only [Option.map_some', Option.some.injEq] at hfk
    subst hfk
    exact ⟨wire_colon_free k,
      (internalFormVal_roundtrip v (Hdr_internalForm_get h hf k v hv)).1⟩

theorem write_header_eq (h : Hdr) :
    write_header h = (reformat_header_settings_gaggle_to_anki h).map
      fun p => headerLine p.1 p.2 := by
  show (_ANKI_ORDERED_HEADER.filterMap fun setting_name =>
      (dictLookup (reformat_header_settings_gaggle_to_anki h) setting_name).map fun v =>
        headerLine setting_name v) = _
  rw [ordered_eq_map_wire, List.filterMap_map]
  unfold reformat_header_settings_gaggle_to_anki
  rw [List.map_filterMap]
  apply List.filterMap_congr
  intro k hk
  rw [Function.comp_apply,
    entries_lookup_mem h k allHKeys allHKeys_nodup hk]
  cases hv : h.get k with
  | none => simp
  | some v => simp

theorem read_header_aux_entries :
    ∀ (entries acc : List (String × HVal)),
      (∀ p ∈ entries, ':' ∉ p.1.data ∧ ReadBackVal p.2) →
      ((entries.map Prod.fst).Nodup) →
      (∀ p ∈ entries, dictLookup acc p.1 = none) →
      read_header_settings_aux acc (entries.map fun p => headerLine p.1 p.2) =
        .ok (acc ++ entries, []) := by
  intro entries
  induction entries with
  | nil => intro acc _ _ _; simp [read_header_settings_aux]
  | cons p rest ih =>
    intro acc hp hnd hfresh
    rcases p with ⟨name, w⟩
    have hhead := hp (name, w) (List.mem_cons_self _ _)
    obtain ⟨hcn, hcw, hrw, htw⟩ : ':' ∉ name.data ∧ ':' ∉ (hvalStr w).data ∧
        rstripChars (hvalStr w).data = (hvalStr w).data ∧
        transform_integer_value (.str (hvalStr w)) 0 1 = w :=
      ⟨hhead.1, hhead.2.1, hhead.2.2.1, hhead.2.2.2⟩
    simp only [List.map_cons, read_header_settings_aux]
    rw [show (headerLine name w).data = '#' :: (name.data ++ ':' :: (hvalStr w).data) from rfl]
    simp only [if_pos rfl]
    rw [splitTwo_append name.data (hvalStr w).data hcn hcw]
    simp only [if_true]
    rw [hrw]
    rw [show (⟨(hvalStr w).data⟩ : String) = hvalStr w from rfl, htw]
    rw [show (⟨name.data⟩ : String) = name from rfl]
    rw [dictInsert_eq_append acc name w (hfresh (name, w) (List.mem_cons_self _ _))]
    rw [List.map_cons] at hnd
    have hnd2 : (name :: rest.map Prod.fst).Nodup := hnd
    obtain ⟨hname_not, hnd'⟩ := List.nodup_cons.mp hnd2
    rw [ih (acc ++ [(name, w)]) (fun q hq => hp q (List.mem_cons_of_mem _ hq)) hnd'
      (fun q hq => by
        have hq1 : q.1 ≠ name := by
          intro e
          exact hname_not (e ▸ List.mem_map_of_mem Prod.fst hq)
        rw [dictLookup_append_singleton acc name q.1 w hq1]
        exact hfresh q (List.mem_cons_of_mem _ hq))]
    simp

theorem reformatA2G_entries (h : Hdr) :
    ∀ (ks : List HKey) (start : Hdr),
      (∀ k ∈ ks, ∀ v, h.get k = some v →
        transform_integer_value (transform_integer_value v 1 1) (-1) 1 = v) →
      reformat_header_settings_anki_to_gaggle
        (ks.filterMap fun q => (h.get q).map fun v =>
          (wireOfInternal q, transform_integer_value v 1 1)) start =
        .ok (setAll h ks start) := by
  intro ks
  induction ks with
  | nil => intro start _; rfl
  | cons k rest ih =>
    intro start hrt
    cases hv : h.get k with
    | none =>
      have hstep : (List.filterMap (fun q => (h.get q).map fun v =>
          (wireOfInternal q, transform_integer_value v 1 1)) (k :: rest)) =
          List.filterMap (fun q => (h.get q).map fun v =>
            (wireOfInternal q, transform_integer_value v 1 1)) rest := by
        simp [List.filterMap_cons, hv]
      rw [hstep]
      rw [ih start (fun q hq => hrt q (List.mem_cons_of_mem _ hq))]
      have : setAll h (k :: rest) start = setAll h rest start := by
        simp [setAll, List.foldl_cons, hv]
      rw [this]
    | some v =>
      have hstep : (List.filterMap (fun q => (h.get q).map fun v =>
          (wireOfInternal q, transform_integer_value v 1 1)) (k :: rest)) =
          (wireOfInternal k, transform_integer_value v 1 1) ::
            List.filterMap (fun q => (h.get q).map fun v =>
              (wireOfInternal q, transform_integer_value v 1 1)) rest := by
        simp [List.filterMap_cons, hv]
      rw [hstep]
      have hone : reformat_header_settings_anki_to_gaggle
          ((wireOfInternal k, transform_integer_value v 1 1) ::
            List.filterMap (fun q => (h.get q).map fun v =>
              (wireOfInternal q, transform_integer_value v 1 1)) rest) start =
          reformat_header_settings_anki_to_gaggle
            (List.filterMap (fun q => (h.get q).map fun v =>
              (wireOfInternal q, transform_integer_value v 1 1)) rest)
            (start.set k
              (transform_integer_value (transform_integer_value v 1 1) (-1) 1)) := by
        simp [reformat_header_settings_anki_to_gaggle, internalOfWire_wire k]
      rw [hone, hrt k (List.mem_cons_self _ _) v hv]
      rw [ih (start.set k v) (fun q hq => hrt q (List.mem_cons_of_mem _ hq))]
      have : setAll h (k :: rest) start = setAll h rest (start.set k v) := by
        simp [setAll, List.foldl_cons, hv]
      rw [this]

theorem setAll_allHKeys (h : Hdr) : setAll h allHKeys emptyHdr = h := by
  rcases h with ⟨s, b, g, n, d, t⟩
  cases s <;> cases b <;> cases g <;> cases n <;> cases d <;> cases t <;> rfl

theorem parse_header_settings_eq (lines : List String) (items : List (String × HVal))
    (rest : List String) (h' : Hdr)
    (h1 : read_header_settings lines = .ok (items, rest))
    (h2 : reformat_header_settings_anki_to_gaggle items emptyHdr = .ok h') :
    parse_header_settings lines = .ok (h', rest) := by
  unfold parse_header_settings
  simp [h1, h2]

/-- C4: serializing an internal-form header with `write_header` and parsing
the result with `parse_header_settings` reproduces every setting exactly —
the wire-to-internal key translation and the shift-by-one index arithmetic
invert the internal-to-wire direction, for column-index values as well. -/
theorem c4_header_roundtrip (h : Hdr) (hf : InternalForm h) :
    parse_header_settings (write_header h) = .ok (h, []) := by
  rw [write_header_eq]
  refine parse_header_settings_eq _ (reformat_header_settings_gaggle_to_anki h) [] h ?_ ?_
  · have hr := read_header_aux_entries (reformat_header_settings_gaggle_to_anki h) []
      (entries_props h hf) (entries_keys_nodup h allHKeys allHKeys_nodup) (fun p _ => rfl)
    simpa using hr
  · have hr := reformatA2G_entries h allHKeys emptyHdr
      (fun k _ v hv => (internalFormVal_roundtrip v (Hdr_internalForm_get h hf k v hv)).2)
    rw [setAll_allHKeys] at hr
    exact hr

/-- Witness for C4 at a concrete internal-form header containing a string
setting and several column indices. -/
theorem c4_header_roundtrip_witness :
    parse_header_settings (write_header ⟨some (.str "tab"), some (.str "true"),
      some (.int 0), none, some (.int 2), some (.int 5)⟩) =
      .ok (⟨some (.str "tab"), some (.str "true"), some (.int 0), none, some (.int 2),
        some (.int 5)⟩, []) :=
  c4_header_roundtrip _ (by decide)

/-! ## Reserved-table and card lemmas -/

theorem dictInsert_snd_subset {α β : Type} [DecidableEq α] :
    ∀ (m : List (α × β)) (k : α) (v x : β),
      x ∈ (dictInsert m k v).map Prod.snd → x = v ∨ x ∈ m.map Prod.snd := by
  intro m
  induction m with
  | nil =>
    intro k v x h
    simp [dictInsert] at h
    exact Or.inl h
  | cons p rest ih =>
    intro k v x h
    rcases p with ⟨k', v'⟩
    by_cases hk : k' = k
    · simp only [dictInsert, if_pos hk, List.map_cons, List.mem_cons] at h
      rcases h with h | h
      · exact Or.inl h
      · exact Or.inr (List.mem_cons_of_mem _ h)
    · simp only [dictInsert, if_neg hk, List.map_cons, List.mem_cons] at h
      rcases h with h | h
      · exact Or.inr (by simp [h])
      · rcases ih k v x h with h2 | h2
        · exact Or.inl h2
        · exact Or.inr (List.mem_cons_of_mem _ h2)

theorem dictInsert_snd_nodup {α β : Type} [DecidableEq α] :
    ∀ (m : List (α × β)) (k : α) (v : β),
      (m.map Prod.snd).Nodup → v ∉ m.map Prod.snd →
      ((dictInsert m k v).map Prod.snd).Nodup := by
  intro m
  induction m with
  | nil => intro k v _ _; simp [dictInsert]
  | cons p rest ih =>
    intro k v hnd hv
    rcases p with ⟨k', v'⟩
    simp only [List.map_cons, List.nodup_cons] at hnd
    by_cases hk : k' = k
    · simp only [dictInsert, if_pos hk, List.map_cons, List.nodup_cons]
      exact ⟨fun hm => hv (List.mem_cons_of_mem _ hm), hnd.2⟩
    · simp only [dictInsert, if_neg hk, List.map_cons, List.nodup_cons]
      constructor
      · intro hm
        rcases dictInsert_snd_subset rest k v v' hm with h | h
        · exact hv (by simp [h])
        · exact hnd.1 h
      · exact ih k v hnd.2 fun hm => hv (List.mem_cons_of_mem _ hm)

theorem reservedInsertStep_values (m : List (HVal × String)) (S : List String)
    (o : Option HVal) (name : String)
    (h : (∀ x ∈ m.map Prod.snd, x ∈ S) ∧ (m.map Prod.snd).Nodup)
    (hname : name ∉ S) :
    (∀ x ∈ (reservedInsertStep m (o, name)).map Prod.snd, x ∈ name :: S) ∧
      ((reservedInsertStep m (o, name)).map Prod.snd).Nodup := by
  cases o with
  | none => exact ⟨fun x hx => List.mem_cons_of_mem _ (h.1 x hx), h.2⟩
  | some k =>
    constructor
    · intro x hx
      rcases dictInsert_snd_subset m k name x hx with h2 | h2
      · simp [h2]
      · exact List.mem_cons_of_mem _ (h.1 x h2)
    · exact dictInsert_snd_nodup m k name h.2 fun hm => hname (h.1 name hm)

theorem buildReserved_values (t d n g : Option HVal) :
    (∀ x ∈ (buildReserved t d n g).map Prod.snd, x ∈ AnkiCard_reserved_names) ∧
      ((buildReserved t d n g).map Prod.snd).Nodup := by
  have h0 : (∀ x ∈ ([] : List (HVal × String)).map Prod.snd, x ∈ ([] : List String)) ∧
      (([] : List (HVal × String)).map Prod.snd).Nodup := ⟨by simp, by simp⟩
  have h1 := reservedInsertStep_values [] [] t "Tags" h0 (by simp)
  have h2 := reservedInsertStep_values _ _ d "Deck" h1 (by decide)
  have h3 := reservedInsertStep_values _ _ n "Note Type" h2 (by decide)
  have h4 := reservedInsertStep_values _ _ g "GUID" h3 (by decide)
  unfold buildReserved
  simp only [List.foldl_cons, List.foldl_nil]
  refine ⟨fun x hx => ?_, h4.2⟩
  have hmem := h4.1 x hx
  simp only [List.mem_cons, List.not_mem_nil, or_false] at hmem
  rcases hmem with rfl | rfl | rfl | rfl <;> decide

theorem reservedGet_mem_seed (t d n g : Option HVal) (i : Nat) (s : String)
    (h : reservedGet (buildReserved t d n g) i = some s) : s ∈ AnkiCard_reserved_names := by
  have hm := dictLookup_mem _ _ _ h
  exact (buildReserved_values t d n g).1 s (List.mem_map_of_mem Prod.snd hm)

theorem reservedGet_inj (t d n g : Option HVal) (i j : Nat) (s u : String)
    (hi : reservedGet (buildReserved t d n g) i = some s)
    (hj : reservedGet (buildReserved t d n g) j = some u)
    (hij : i ≠ j) : s ≠ u := by
  intro he
  subst he
  have hmi := dictLookup_mem _ _ _ hi
  have hmj := dictLookup_mem _ _ _ hj
  have heq := List.inj_on_of_nodup_map (buildReserved_values t d n g).2 hmi hmj rfl
  have : (HVal.int (Int.ofNat i)) = (HVal.int (Int.ofNat j)) := congrArg Prod.fst heq
  simp at this
  exact hij (by omega)

theorem AnkiCard_init_fields_eq (fields : List String) (field_names : Option (List String))
    (has_html : HVal) (tags_idx note_type_idx deck_idx guid_idx : Option HVal)
    (card : AnkiCardModel)
    (h : AnkiCard_init fields field_names has_html tags_idx note_type_idx deck_idx guid_idx =
      .ok card) :
    (_generate_unique_field_names (field_names.getD []) fields
      (reservedGet (buildReserved tags_idx deck_idx note_type_idx guid_idx))
      AnkiCard_reserved_names).err = none ∧
    card.fields = (_generate_unique_field_names (field_names.getD []) fields
      (reservedGet (buildReserved tags_idx deck_idx note_type_idx guid_idx))
      AnkiCard_reserved_names).names.zip fields ∧
    _parse_anki_header_bool has_html = .ok card.has_html := by
  unfold AnkiCard_init at h
  cases hb : _parse_anki_header_bool has_html with
  | error e => rw [hb] at h; simp at h
  | ok b =>
    rw [hb] at h
    cases herr : (_generate_unique_field_names (field_names.getD []) fields
        (reservedGet (buildReserved tags_idx deck_idx note_type_idx guid_idx))
        AnkiCard_reserved_names).err with
    | some e => simp [herr] at h
    | none =>
      simp only [herr] at h
      simp only [Except.ok.injEq] at h
      subst h
      exact ⟨rfl, rfl, rfl⟩

theorem AnkiCard_init_fields_nodup (fields : List String) (field_names : Option (List String))
    (has_html : HVal) (tags_idx note_type_idx deck_idx guid_idx : Option HVal)
    (card : AnkiCardModel)
    (h : AnkiCard_init fields field_names has_html tags_idx note_type_idx deck_idx guid_idx =
      .ok card) :
    (card.fields.map Prod.fst).Nodup := by
  have he := AnkiCard_init_fields_eq fields field_names has_html
    tags_idx note_type_idx deck_idx guid_idx card h
  have hnn := go_nodup (reservedGet (buildReserved tags_idx deck_idx note_type_idx guid_idx))
    (fun i j s u hi hj hij => reservedGet_inj _ _ _ _ i j s u hi hj hij)
    fields (field_names.getD []) 0 AnkiCard_reserved_names
    (fun i s hr => reservedGet_mem_seed _ _ _ _ i s hr)
  have hlen := go_length (reservedGet (buildReserved tags_idx deck_idx note_type_idx guid_idx))
    fields (field_names.getD []) 0 AnkiCard_reserved_names he.1
  rw [he.2.1]
  rw [List.map_fst_zip _ _ (le_of_eq
    (show (_generate_unique_field_names (field_names.getD []) fields
      (reservedGet (buildReserved tags_idx deck_idx note_type_idx guid_idx))
      AnkiCard_reserved_names).names.length = fields.length from hlen))]
  exact hnn.1

theorem create_cards_mem (header : Hdr) (field_names : Option (List String)) :
    ∀ (lines : List String) (cards : List AnkiCardModel),
      create_cards_from_tsv lines field_names header = .ok cards →
      ∀ c ∈ cards, ∃ line,
        AnkiCard_init (csvRow line) field_names (header.has_html.getD (.str "false"))
          header.tags_idx header.note_type_idx header.deck_idx header.guid_idx = .ok c := by
  intro lines
  induction lines with
  | nil =>
    intro cards h c hc
    unfold create_cards_from_tsv at h
    simp only [Except.ok.injEq] at h
    subst h
    simp at hc
  | cons line rest ih =>
    intro cards h c hc
    cases hx : (if header.separator.isSome then
        (.error (.typeErrorUnexpectedKeyword "separator") : Except PyErr AnkiCardModel)
      else AnkiCard_init (csvRow line) field_names (header.has_html.getD (.str "false"))
        header.tags_idx header.note_type_idx header.deck_idx header.guid_idx) with
    | error e => simp [create_cards_from_tsv, hx] at h
    | ok card =>
      cases hr : create_cards_from_tsv rest field_names header with
      | error e => simp [create_cards_from_tsv, hx, hr] at h
      | ok cards' =>
        have hcc : cards = card :: cards' := by
          have := h
          simp [create_cards_from_tsv, hx, hr] at this
          exact this.symm
        subst hcc
        rcases List.mem_cons.mp hc with he | hm
        · subst he
          by_cases hsep : header.separator.isSome
          · simp [hsep] at hx
          · rw [if_neg hsep] at hx
            exact ⟨line, hx⟩
        · exact ih cards' hr c hm

/-! ## Claim theorems -/

/-- C1 counterexample: with `seen_names` pre-seeded with exactly the four
reserved canonical names, no reservations, and a field sequence of length
`field_count = 2`, candidate names `["Field1", ""]` make the resolver raise
the generic-name `ValueError` after yielding only one name, so it does not
yield a sequence of exactly `field_count` names. -/
theorem c1_counterexample :
    (_generate_unique_field_names ["Field1", ""] ["a", "b"] (fun _ => none)
      AnkiCard_reserved_names).names.length ≠ 2 ∧
    (_generate_unique_field_names ["Field1", ""] ["a", "b"] (fun _ => none)
      AnkiCard_reserved_names).err =
      some (.valueErrorGenericNameDuplicated "Field1") := by
  decide

/-- C1 (amended): for every candidate-name sequence, field sequence, and
reserved index-to-name mapping whose indices lie in `[0, field_count)`,
whose names are pairwise distinct and drawn from the pre-seeded
`seen_names` (as `AnkiCard` arranges with the four canonical reserved
names), if the resolver completes without raising then it yields a sequence
of exactly `field_count` pairwise-distinct names. -/
theorem c1_resolver_unique (indexes_reserved_names : Nat → Option String)
    (field_names fields : List String)
    (hinj : ∀ i j s t, indexes_reserved_names i = some s →
      indexes_reserved_names j = some t → i ≠ j → s ≠ t)
    (hseed : ∀ i s, indexes_reserved_names i = some s → s ∈ AnkiCard_reserved_names)
    (_hrange : ∀ i, (indexes_reserved_names i).isSome → i < fields.length)
    (hok : (_generate_unique_field_names field_names fields indexes_reserved_names
      AnkiCard_reserved_names).err = none) :
    (_generate_unique_field_names field_names fields indexes_reserved_names
      AnkiCard_reserved_names).names.length = fields.length ∧
    (_generate_unique_field_names field_names fields indexes_reserved_names
      AnkiCard_reserved_names).names.Nodup :=
  ⟨go_length _ fields field_names 0 _ hok,
    (go_nodup _ hinj fields field_names 0 _ hseed).1⟩

/-- Witness for C1 (amended) at a concrete reservation-free input. -/
theorem c1_resolver_unique_witness :
    (_generate_unique_field_names ["A", "B"] ["a", "b"] (fun _ => none)
      AnkiCard_reserved_names).names.length = 2 ∧
    (_generate_unique_field_names ["A", "B"] ["a", "b"] (fun _ => none)
      AnkiCard_reserved_names).names.Nodup := by
  have h := c1_resolver_unique (fun _ => none) ["A", "B"] ["a", "b"]
    (fun i j s t hi _ _ => absurd hi (by simp))
    (fun i s hi => absurd hi (by simp))
    (fun i hi => absurd hi (by simp))
    (by decide)
  simpa using h

/-- C2: at a position with a reserved name binding where the candidate name
is non-empty and differs from the reserved name, the resolver yields the
reserved name for that slot and contributes exactly one
`HeaderFieldNameMismatch` diagnostic and no `DuplicateName` diagnostic to
the run, regardless of whether the candidate is already in `seen_names`. -/
theorem c2_reserved_mismatch (indexes_reserved_names : Nat → Option String)
    (reserved_name n f : String) (cands fs seen : List String) (count : Nat)
    (hres : indexes_reserved_names count = some reserved_name)
    (hne : n ≠ "") (hnr : n ≠ reserved_name) :
    _generate_unique_field_names_go indexes_reserved_names (n :: cands) (f :: fs) count seen =
      { names := reserved_name ::
          (_generate_unique_field_names_go indexes_reserved_names cands fs (count + 1)
            seen).names,
        diags := .headerFieldNameMismatch n reserved_name ::
          (_generate_unique_field_names_go indexes_reserved_names cands fs (count + 1)
            seen).diags,
        seen := (_generate_unique_field_names_go indexes_reserved_names cands fs (count + 1)
          seen).seen,
        err := (_generate_unique_field_names_go indexes_reserved_names cands fs (count + 1)
          seen).err } := by
  simp [_generate_unique_field_names_go, hres, hne, hnr]

/-- Witness for C2 at the spec's example: index 2 reserved to `Deck`,
candidate `Foo` (already claimed in `seen_names`): the slot resolves to
`Deck` with exactly one mismatch diagnostic and no duplicate diagnostic. -/
theorem c2_reserved_mismatch_witness :
    _generate_unique_field_names_go (fun i => if i = 2 then some "Deck" else none)
      ["Foo"] ["x"] 2 ("Foo" :: AnkiCard_reserved_names) =
      { names := ["Deck"], diags := [.headerFieldNameMismatch "Foo" "Deck"],
        seen := "Foo" :: AnkiCard_reserved_names, err := none } := by
  rw [c2_reserved_mismatch (fun i => if i = 2 then some "Deck" else none) "Deck" "Foo" "x"
    [] [] ("Foo" :: AnkiCard_reserved_names) 2 (by decide) (by decide) (by decide)]
  decide

/-- C3 counterexample: at candidate names `["Field1", "Field1"]` with no
reservations and `field_count = 2`, the duplicate candidate at position 1 is
not replaced by a yielded default — the generated default `Field1` is itself
already claimed, so the resolver raises `ValueError` and yields only one
name. -/
theorem c3_counterexample :
    (_generate_unique_field_names ["Field1", "Field1"] ["a", "b"] (fun _ => none)
      AnkiCard_reserved_names).names = ["Field1"] ∧
    (_generate_unique_field_names ["Field1", "Field1"] ["a", "b"] (fun _ => none)
      AnkiCard_reserved_names).err = some (.valueErrorGenericNameDuplicated "Field1") := by
  decide

/-- C3 (amended): at a non-reserved position, a candidate name already in
`seen_names` is replaced by the generated default `Field{count}` with
exactly one `DuplicateName` diagnostic carrying the duplicate value and its
replacement, provided that generated default is not itself already claimed;
in particular `["Foo", "Foo"]` with no reservations and `field_count = 2`
resolves to `["Foo", "Field1"]` with exactly one `DuplicateName`
diagnostic. -/
theorem c3_duplicate_replaced (indexes_reserved_names : Nat → Option String)
    (n f : String) (cands fs seen : List String) (count : Nat)
    (hres : indexes_reserved_names count = none)
    (hdup : n ∈ seen)
    (hgen : genericFieldName count ∉ seen) :
    (_generate_unique_field_names_go indexes_reserved_names (n :: cands) (f :: fs) count seen =
      { names := genericFieldName count ::
          (_generate_unique_field_names_go indexes_reserved_names cands fs (count + 1)
            (genericFieldName count :: seen)).names,
        diags := .duplicateName "field name" n (genericFieldName count) ::
          (_generate_unique_field_names_go indexes_reserved_names cands fs (count + 1)
            (genericFieldName count :: seen)).diags,
        seen := (_generate_unique_field_names_go indexes_reserved_names cands fs (count + 1)
          (genericFieldName count :: seen)).seen,
        err := (_generate_unique_field_names_go indexes_reserved_names cands fs (count + 1)
          (genericFieldName count :: seen)).err }) ∧
    _generate_unique_field_names ["Foo", "Foo"] ["a", "b"] (fun _ => none)
      AnkiCard_reserved_names =
      { names := ["Foo", "Field1"],
        diags := [.duplicateName "field name" "Foo" "Field1"],
        seen := "Field1" :: "Foo" :: AnkiCard_reserved_names, err := none } := by
  constructor
  · simp [_generate_unique_field_names_go, hres, hdup, hgen]
  · decide

/-- Witness for C3 (amended): the second slot of the spec's `["Foo", "Foo"]`
example, where `Foo` is already claimed and the default `Field1` is free. -/
theorem c3_duplicate_replaced_witness :
    _generate_unique_field_names_go (fun _ => none) ["Foo"] ["b"] 1
      ("Foo" :: AnkiCard_reserved_names) =
      { names := ["Field1"], diags := [.duplicateName "field name" "Foo" "Field1"],
        seen := "Field1" :: "Foo" :: AnkiCard_reserved_names, err := none } := by
  rw [(c3_duplicate_replaced (fun _ => none) "Foo" "b" [] []
    ("Foo" :: AnkiCard_reserved_names) 1 rfl (by decide) (by decide)).1]
  decide

/-- C5 counterexample: a stream whose header declares `separator:comma` does
not fail — `_parse_anki_export` succeeds, returning the parsed header and an
empty card list. -/
theorem c5_counterexample :
    _parse_anki_export ["#separator:comma", "a\tb"] none =
      .ok (⟨some (.str "comma"), none, none, none, none, none⟩, []) := by
  decide

/-- C5 (amended): for every input stream whose header parses successfully
and declares a separator value other than the literal `tab` indicator, deck
parsing succeeds and returns the parsed header together with an empty card
list — the data rows are skipped, and no error is raised. -/
theorem c5_non_tab_separator (lines : List String) (field_names : Option (List String))
    (header : Hdr) (rest : List String) (v : HVal)
    (hp : parse_header_settings lines = .ok (header, rest))
    (hs : header.separator = some v) (hv : v ≠ .str "tab") :
    _parse_anki_export lines field_names = .ok (header, []) := by
  unfold _parse_anki_export
  rw [hp]
  simp [hs, hv]

/-- Witness for C5 (amended) at a concrete semicolon-separator stream. -/
theorem c5_non_tab_separator_witness :
    _parse_anki_export ["#separator:semicolon", "x\ty"] none =
      .ok (⟨some (.str "semicolon"), none, none, none, none, none⟩, []) :=
  c5_non_tab_separator _ none _ ["x\ty"] (.str "semicolon") (by decide) (by decide) (by decide)

/-- C6 counterexample: parsing two rows with field names `["Foo"]` gives two
records that both resolve their field to `Foo` and no diagnostic — the
`seen_names` set is created afresh per card (`set(AnkiCard._reserved_names)`
in `AnkiCard.__init__`), so resolved-name uniqueness is not deck-wide. -/
theorem c6_counterexample :
    create_cards_from_tsv ["a", "b"] (some ["Foo"]) emptyHdr =
      .ok [⟨false, [("Foo", "a")]⟩, ⟨false, [("Foo", "b")]⟩] ∧
    ¬ (((⟨false, [("Foo", "a")]⟩ : AnkiCardModel).fields.map Prod.fst ++
        (⟨false, [("Foo", "b")]⟩ : AnkiCardModel).fields.map Prod.fst).Nodup) := by
  constructor
  · decide
  · decide

/-- C6 (amended): each row of a deck is resolved against a fresh
name-resolution context seeded with only the four reserved canonical names,
so resolved field-name uniqueness holds within each individual record, and
the same resolved name may recur across different records of the deck. -/
theorem c6_per_record_unique (lines : List String) (field_names : Option (List String))
    (header : Hdr) (cards : List AnkiCardModel)
    (h : create_cards_from_tsv lines field_names header = .ok cards) :
    ∀ c ∈ cards, (c.fields.map Prod.fst).Nodup := by
  intro c hc
  obtain ⟨line, hline⟩ := create_cards_mem header field_names lines cards h c hc
  exact AnkiCard_init_fields_nodup _ _ _ _ _ _ _ _ hline

/-- Witness for C6 (amended) at the first record of a concrete two-row
deck. -/
theorem c6_per_record_unique_witness :
    ((⟨false, [("Foo", "a")]⟩ : AnkiCardModel).fields.map Prod.fst).Nodup :=
  c6_per_record_unique ["a", "b"] (some ["Foo"]) emptyHdr
    [⟨false, [("Foo", "a")]⟩, ⟨false, [("Foo", "b")]⟩] (by decide)
    ⟨false, [("Foo", "a")]⟩ (by decide)

/-- C7: evaluating the resolver at candidates `["A", "B", "C"]` with two
fields: both names are yielded, but instead of emitting a `LeftoverNames`
diagnostic listing `["C"]` the run terminates with `TypeError` — the
`LeftoverArgumentWarning.from_values([name], field_names,
context_message=..., leftover_name=...)` call binds `context_message` both
positionally (to `[name]`) and by keyword, and `from_values` is an
unimplemented stub (`pass`) in `exceptions.py`, contradicting the documented
`LeftoverArgumentWarning` behaviour. -/
theorem c7_leftover_raises :
    _generate_unique_field_names ["A", "B", "C"] ["a", "b"] (fun _ => none)
      AnkiCard_reserved_names =
      { names := ["A", "B"], diags := [],
        seen := "B" :: "A" :: AnkiCard_reserved_names,
        err := some .typeErrorLeftoverNames } := by
  decide

/-- C8: whenever a default name is generated at a non-reserved position —
the candidate is absent, empty, or cleared as a duplicate — and the default
is still free, the yielded name is `Field{count}` keyed to the positional
index of the slot, never to the number of previously generated names; in
particular the stream with header `#separator:tab`, `#guid column:1` and row
`a\tb\tc` parses to one record with fields
`{GUID: "a", Field1: "b", Field2: "c"}`. -/
theorem c8_generated_names_positional :
    (∀ (indexes_reserved_names : Nat → Option String) (cands : List String) (f : String)
      (fs seen : List String) (count : Nat),
      indexes_reserved_names count = none →
      (cands.head? = none ∨ cands.head? = some "" ∨
        ∃ n, cands.head? = some n ∧ n ∈ seen) →
      genericFieldName count ∉ seen →
      (_generate_unique_field_names_go indexes_reserved_names cands (f :: fs) count
        seen).names.head? = some (genericFieldName count)) ∧
    _parse_anki_export ["#separator:tab", "#guid column:1", "a\tb\tc"] none =
      .ok (⟨some (.str "tab"), none, some (.int 0), none, none, none⟩,
        [⟨false, [("GUID", "a"), ("Field1", "b"), ("Field2", "c")]⟩]) := by
  constructor
  · intro reserved cands f fs seen count hres hcand hgen
    rcases cands with _ | ⟨n, rest⟩
    · simp [_generate_unique_field_names_go, hres, hgen]
    · rcases hcand with h | h | ⟨m, hm, hmem⟩
      · simp at h
      · simp only [List.head?_cons, Option.some.injEq] at h
        subst h
        by_cases hdup : ("" : String) ∈ seen
        · simp [_generate_unique_field_names_go, hres, hdup, hgen]
        · simp [_generate_unique_field_names_go, hres, hdup, hgen]
      · simp only [List.head?_cons, Option.some.injEq] at hm
        subst hm
        simp [_generate_unique_field_names_go, hres, hmem, hgen]
  · decide

/-- Witness for C8: a reserved slot at index 0 does not shift the numbering —
the generated name at position 1 is `Field1`. -/
theorem c8_generated_names_positional_witness :
    (_generate_unique_field_names_go (fun i => if i = 0 then some "GUID" else none)
      [] ["b"] 1 AnkiCard_reserved_names).names.head? = some (genericFieldName 1) :=
  c8_generated_names_positional.1 (fun i => if i = 0 then some "GUID" else none) [] "b" []
    AnkiCard_reserved_names 1 (by decide) (Or.inl (by decide)) (by decide)

/-- C9: at a non-reserved position where the empty, absent or
duplicate-cleared candidate leads to generating the default `Field{count}`
and that name is already in `seen_names`, the resolver raises the fatal
`ValueError` (distinct from the recoverable diagnostics) and stops yielding;
the error propagates through card construction to the caller of the deck
parse, as the concrete parse with `field_names = ["Field1", ""]` shows. -/
theorem c9_generated_collision_fatal :
    (∀ (indexes_reserved_names : Nat → Option String) (cands : List String) (f : String)
      (fs seen : List String) (count : Nat),
      indexes_reserved_names count = none →
      (cands.head? = none ∨ cands.head? = some "" ∨
        ∃ n, cands.head? = some n ∧ n ∈ seen) →
      genericFieldName count ∈ seen →
      (_generate_unique_field_names_go indexes_reserved_names cands (f :: fs) count
        seen).err = some (.valueErrorGenericNameDuplicated (genericFieldName count)) ∧
      (_generate_unique_field_names_go indexes_reserved_names cands (f :: fs) count
        seen).names = []) ∧
    _parse_anki_export ["#separator:tab", "a\tb"] (some ["Field1", ""]) =
      .error (.valueErrorGenericNameDuplicated "Field1") := by
  constructor
  · intro reserved cands f fs seen count hres hcand hgen
    rcases cands with _ | ⟨n, rest⟩
    · constructor <;> simp [_generate_unique_field_names_go, hres, hgen]
    · rcases hcand with h | h | ⟨m, hm, hmem⟩
      · simp at h
      · simp only [List.head?_cons, Option.some.injEq] at h
        subst h
        by_cases hdup : ("" : String) ∈ seen
        · constructor <;> simp [_generate_unique_field_names_go, hres, hdup, hgen]
        · constructor <;> simp [_generate_unique_field_names_go, hres, hdup, hgen]
      · simp only [List.head?_cons, Option.some.injEq] at hm
        subst hm
        constructor <;> simp [_generate_unique_field_names_go, hres, hmem, hgen]
  · decide

/-- Witness for C9 at a concrete slot: position 1 with an empty candidate
and `Field1` pre-claimed raises the fatal error and yields nothing. -/
theorem c9_generated_collision_fatal_witness :
    (_generate_unique_field_names_go (fun _ => none) [""] ["b"] 1
      ("Field1" :: AnkiCard_reserved_names)).err =
      some (.valueErrorGenericNameDuplicated (genericFieldName 1)) ∧
    (_generate_unique_field_names_go (fun _ => none) [""] ["b"] 1
      ("Field1" :: AnkiCard_reserved_names)).names = [] :=
  c9_generated_collision_fatal.1 (fun _ => none) [""] "b" []
    ("Field1" :: AnkiCard_reserved_names) 1 rfl (Or.inr (Or.inl (by decide))) (by decide)

/-- C10: `AnkiCard` construction parses `has_html` strictly — any value other
than the exact strings `true` and `false` raises `ValueError` (so a deck
whose header carries `#html:1` fails fatally, the value having become the
integer `0` after the wire-to-internal shift), and an absent `html` setting
constructs the card with `has_html = false`. -/
theorem c10_html_strict_bool :
    (∀ v : HVal, v ≠ .str "true" → v ≠ .str "false" →
      ∀ (fields : List String) (field_names : Option (List String))
        (tags_idx note_type_idx deck_idx guid_idx : Option HVal),
        AnkiCard_init fields field_names v tags_idx note_type_idx deck_idx guid_idx =
          .error (.valueErrorBadBool v)) ∧
    _parse_anki_export ["#separator:tab", "#html:1", "a"] none =
      .error (.valueErrorBadBool (.int 0)) ∧
    (∀ (lines : List String) (field_names : Option (List String)) (header : Hdr)
      (cards : List AnkiCardModel),
      header.has_html = none →
      create_cards_from_tsv lines field_names header = .ok cards →
      ∀ c ∈ cards, c.has_html = false) := by
  refine ⟨?_, by decide, ?_⟩
  · intro v hv1 hv2 fields field_names t n d g
    unfold AnkiCard_init
    cases v with
    | str s =>
      have h1 : s ≠ "true" := fun e => hv1 (by rw [e])
      have h2 : s ≠ "false" := fun e => hv2 (by rw [e])
      simp [_parse_anki_header_bool, h1, h2]
    | int k => simp [_parse_anki_header_bool]
  · intro lines field_names header cards hnone hok c hc
    obtain ⟨line, hline⟩ := create_cards_mem header field_names lines cards hok c hc
    have he := AnkiCard_init_fields_eq _ _ _ _ _ _ _ _ hline
    rw [hnone] at he
    have hb : _parse_anki_header_bool (.str "false") = .ok c.has_html := he.2.2
    simp only [_parse_anki_header_bool] at hb
    simp at hb
    exact hb

/-- Witness for C10 at the concrete non-boolean value `yes`. -/
theorem c10_html_strict_bool_witness :
    AnkiCard_init ["x"] none (.str "yes") none none none none =
      .error (.valueErrorBadBool (.str "yes")) :=
  c10_html_strict_bool.1 (.str "yes") (by decide) (by decide) ["x"] none none none none none
